import Mathlib

/-!
Shallow embedding of the command-line option matcher and the semantic-version
comparison helpers of src/include/minizinc/utils.hh (class CLOParser and
class SemanticVersion), together with proofs about them.

The matcher CLOParser.getOption holds a cursor (an index into the argument
vector) and, given a space-separated list of accepted keyword spellings,
decides whether the token at the cursor matches one of them, optionally
capturing a value that is either glued to the keyword in the same token
(combined form) or held by the following token (separate form).

Modelling conventions:
  - the argument vector argv is a List String, the cursor an index i : Nat;
  - the template parameter Value becomes a type parameter V; the pointer
    pResult becomes a flag hasSlot : Bool together with a slot : V threaded
    through the computation (the slot content is returned unchanged when the
    code does not write through the pointer);
  - the template function assign_string, which succeeds exactly for
    std::string slots, becomes a parameter assignStr : Option (String -> V)
    (some f for string-like slots, none otherwise);
  - stream extraction (istringstream >> tmp) becomes a parameter
    parseVal : String -> Option V; for Value = int it is instantiated with
    parseIntCpp below, which follows the C++ num_get behaviour: skip leading
    whitespace, optional sign, a nonempty run of decimal digits, failure on
    32-bit overflow, trailing characters ignored;
  - a call returns the triple (result, cursor, slot).
-/

/-- The six whitespace characters recognised by isspace in the C locale,
used both by istringstream extraction and when splitting the spellings. -/
def isCppSpace (c : Char) : Bool :=
  c == ' ' || c == '\t' || c == '\n' || c == '\x0b' || c == '\x0c' || c == '\r'

/-- Accumulating word splitter over the character list: acc holds the
characters of the word being read, in reverse. -/
def splitWordsAux : List Char → List Char → List String
  | [], acc => if acc.isEmpty then [] else [⟨acc.reverse⟩]
  | c :: cs, acc =>
    if isCppSpace c then
      if acc.isEmpty then splitWordsAux cs []
      else ⟨acc.reverse⟩ :: splitWordsAux cs []
    else splitWordsAux cs (c :: acc)

/-- Whitespace tokenisation of the spellings string, modelling the loop
while (iss >> keyword) at utils.hh line 127: maximal runs of non-whitespace
characters, in order. -/
def splitWords (s : String) : List String :=
  splitWordsAux s.data []

/-- Remove the first n characters, modelling arg.erase(0, keyword.size())
at utils.hh line 139. -/
def strDrop (s : String) (n : Nat) : String :=
  ⟨s.data.drop n⟩

/-- The truncated comparison 0 == arg.compare(0, keyword.size(), keyword)
at utils.hh line 129: the first keyword.size() characters of arg (fewer when
arg is shorter) equal keyword. -/
def truncCmpEq (arg keyword : String) : Bool :=
  decide (arg.data.take keyword.length = keyword.data)

/-- The candidate-rejection condition of utils.hh lines 128 and 129: skip
this keyword when ((2 < keyword.size() or no slot) and arg differs from
keyword) or the truncated comparison fails. -/
def candSkip (arg keyword : String) (hasSlot : Bool) : Bool :=
  ((decide (2 < keyword.length) || !hasSlot) && decide (arg ≠ keyword)) || !truncCmpEq arg keyword

/-- A candidate matches when it is not skipped. -/
def candMatches (arg keyword : String) (hasSlot : Bool) : Bool :=
  !(candSkip arg keyword hasSlot)

/-- Outcome of processing one matching keyword candidate: either the call
returns (result, cursor, slot), or the loop continues with the next
candidate (the continue of utils.hh line 136). -/
inductive CandStep (V : Type) where
  | ret (ok : Bool) (i : Nat) (slot : V)
  | next
deriving DecidableEq

/-- Wrap a returned triple. -/
def CandStep.ofTriple {V : Type} (t : Bool × Nat × V) : CandStep V :=
  CandStep.ret t.1 t.2.1 t.2.2

/-- The conversion-and-assignment tail of getOption, utils.hh lines 151 to
164: try assign_string; otherwise parse the value text, and on parse failure
decrement the cursor unless the form was combined and return fValueOptional;
on success store the parsed value.  iCur is the cursor value at this point
(the option token index for the combined form, the value token index for the
separate form). -/
def convertAssign {V : Type} (assignStr : Option (String → V))
    (parseVal : String → Option V) (fValueOptional : Bool) (combinedArg : Bool)
    (iCur : Nat) (slot : V) (valText : String) : Bool × Nat × V :=
  match assignStr with
  | some f => (true, iCur, f valText)
  | none =>
    match parseVal valText with
    | none => (fValueOptional, if combinedArg then iCur else iCur - 1, slot)
    | some v => (true, iCur, v)

/-- Processing of one matching keyword candidate, utils.hh lines 132 to 164.
When the keyword is strictly shorter than arg the value is combined: with no
slot the candidate is rejected (continue), otherwise the keyword is stripped
off arg and conversion runs with the cursor unmoved.  When the keyword
equals arg: with no slot the call succeeds at once; otherwise the cursor
advances to the next token, and when none exists it is moved back and the
call returns fValueOptional (the dangling-value rule of lines 144 to 148);
otherwise conversion runs on that next token. -/
def processCand {V : Type} (argv : List String) (hasSlot : Bool)
    (assignStr : Option (String → V)) (parseVal : String → Option V)
    (fValueOptional : Bool) (i : Nat) (slot : V) (arg keyword : String) : CandStep V :=
  if keyword.length < arg.length then
    if !hasSlot then
      CandStep.next
    else
      CandStep.ofTriple (convertAssign assignStr parseVal fValueOptional true i slot
        (strDrop arg keyword.length))
  else
    if !hasSlot then
      CandStep.ret true i slot
    else
      if argv.length ≤ i + 1 then
        CandStep.ret fValueOptional i slot
      else
        CandStep.ofTriple (convertAssign assignStr parseVal fValueOptional false (i + 1) slot
          (argv.getD (i + 1) ""))

/-- The candidate loop of utils.hh lines 127 to 165: try the keyword
candidates in order; a skipped or rejected candidate passes control to the
next one; when the list is exhausted the call fails with cursor and slot
unchanged. -/
def getOptionLoop {V : Type} (argv : List String) (hasSlot : Bool)
    (assignStr : Option (String → V)) (parseVal : String → Option V)
    (fValueOptional : Bool) (i : Nat) (slot : V) (arg : String) :
    List String → Bool × Nat × V
  | [] => (false, i, slot)
  | keyword :: rest =>
    if candSkip arg keyword hasSlot then
      getOptionLoop argv hasSlot assignStr parseVal fValueOptional i slot arg rest
    else
      match processCand argv hasSlot assignStr parseVal fValueOptional i slot arg keyword with
      | CandStep.ret ok j s => (ok, j, s)
      | CandStep.next => getOptionLoop argv hasSlot assignStr parseVal fValueOptional i slot arg rest

/-- The first keyword candidate the loop does not skip. -/
def firstMatch (arg : String) (hasSlot : Bool) : List String → Option String
  | [] => none
  | keyword :: rest =>
    if candSkip arg keyword hasSlot then firstMatch arg hasSlot rest else some keyword

/-- CLOParser.getOption, utils.hh lines 113 to 167: fail when the cursor is
at or past the end, otherwise run the candidate loop on the whitespace-split
spellings against the token at the cursor. -/
def getOption {V : Type} (argv : List String) (names : String) (hasSlot : Bool)
    (assignStr : Option (String → V)) (parseVal : String → Option V)
    (fValueOptional : Bool) (i : Nat) (slot : V) : Bool × Nat × V :=
  if argv.length ≤ i then
    (false, i, slot)
  else
    getOptionLoop argv hasSlot assignStr parseVal fValueOptional i slot (argv.getD i "")
      (splitWords names)

/-- Numeric value of a decimal digit character. -/
def digitVal (c : Char) : Nat := c.toNat - '0'.toNat

/-- Smallest value of a 32-bit int. -/
def intMin : Int := -(2 ^ 31)

/-- Largest value of a 32-bit int. -/
def intMax : Int := 2 ^ 31 - 1

/-- Split an optional leading sign off a character list. -/
def signSplit : List Char → Int × List Char
  | '-' :: r => (-1, r)
  | '+' :: r => (1, r)
  | cs => (1, cs)

/-- Stream extraction of an int (istringstream >> tmp at utils.hh line 157,
with Value = int): skip leading whitespace, read an optional sign and then a
nonempty run of decimal digits, fail when there is no digit or the value
overflows a 32-bit int; characters after the digit run are left unread. -/
def parseIntCpp (s : String) : Option Int :=
  let cs := s.data.dropWhile isCppSpace
  let sc := signSplit cs
  let ds := sc.2.takeWhile Char.isDigit
  if ds.isEmpty then
    none
  else
    let v : Int := sc.1 * ((ds.foldl (fun a c => a * 10 + digitVal c) 0 : Nat) : Int)
    if v < intMin || intMax < v then none else some v

/-- getOption instantiated at Value = int: assign_string fails and stream
extraction is parseIntCpp. -/
def getOptionInt (argv : List String) (names : String) (hasSlot : Bool)
    (fValueOptional : Bool) (i : Nat) (slot : Int) : Bool × Nat × Int :=
  getOption argv names hasSlot none parseIntCpp fValueOptional i slot

/-- The version triple of class SemanticVersion, utils.hh lines 236 to 242
(unsigned int fields become Nat). -/
structure SemanticVersion where
  major : Nat
  minor : Nat
  patch : Nat
deriving DecidableEq

/-- SemanticVersion.operator<, utils.hh lines 258 to 270, translated
verbatim: each comparison returns true on its own, without first requiring
the higher-order fields to be equal. -/
def svLt (a b : SemanticVersion) : Bool :=
  if a.major < b.major then true
  else if a.minor < b.minor then true
  else if a.patch < b.patch then true
  else false

/-- SemanticVersion.operator<=, utils.hh lines 271 to 283, translated
verbatim. -/
def svLe (a b : SemanticVersion) : Bool :=
  if a.major > b.major then false
  else if a.minor > b.minor then false
  else if a.patch > b.patch then false
  else true

/-- Modelled from the spec: strict lexicographic order on the triple
(major, minor, patch), the ordering the spec claims the comparison
operators implement. -/
def lexLtSpec (a b : SemanticVersion) : Bool :=
  decide (a.major < b.major ∨ (a.major = b.major ∧
    (a.minor < b.minor ∨ (a.minor = b.minor ∧ a.patch < b.patch))))

/-- Modelled from the spec: lexicographic less-or-equal on the triple. -/
def lexLeSpec (a b : SemanticVersion) : Bool :=
  lexLtSpec a b || decide (a = b)

/-! ### Helper lemmas -/

/-- The truncated comparison succeeds exactly when the keyword is a prefix
of arg, i.e. arg is the keyword followed by some remainder. -/
theorem truncCmpEq_iff (arg keyword : String) :
    truncCmpEq arg keyword = true ↔ ∃ t : String, arg = keyword ++ t := by
  unfold truncCmpEq
  rw [decide_eq_true_iff]
  constructor
  · intro h
    refine ⟨⟨arg.data.drop keyword.length⟩, String.ext ?_⟩
    rw [String.data_append]
    conv_lhs => rw [← List.take_append_drop keyword.length arg.data]
    rw [h]
  · rintro ⟨t, rfl⟩
    rw [String.data_append]
    have hl : keyword.length = keyword.data.length := rfl
    rw [hl, List.take_left]

/-- The truncated comparison of a string against itself succeeds. -/
theorem truncCmpEq_self (s : String) : truncCmpEq s s = true := by
  unfold truncCmpEq
  rw [decide_eq_true_iff]
  exact List.take_length s.data

/-- A candidate of length at most two with a value slot matches exactly the
tokens that start with it. -/
theorem candMatches_short_slot (arg keyword : String) (h : keyword.length ≤ 2) :
    candMatches arg keyword true = true ↔ ∃ t : String, arg = keyword ++ t := by
  unfold candMatches candSkip
  rw [decide_eq_false (Nat.not_lt.mpr h)]
  simp [truncCmpEq_iff]

/-- A candidate of length more than two, even with a value slot, matches
only the token equal to it. -/
theorem candMatches_long_slot (arg keyword : String) (h : 2 < keyword.length) :
    candMatches arg keyword true = true ↔ arg = keyword := by
  unfold candMatches candSkip
  rw [decide_eq_true h]
  constructor
  · intro hm
    simp only [Bool.true_or, Bool.not_or, Bool.true_and, Bool.and_eq_true,
      Bool.not_eq_true'] at hm
    have := hm.1
    simpa using this
  · rintro rfl
    simp [truncCmpEq_self]

/-- With no value slot a candidate matches only the token equal to it. -/
theorem candMatches_noslot (arg keyword : String) :
    candMatches arg keyword false = true ↔ arg = keyword := by
  unfold candMatches candSkip
  constructor
  · intro hm
    simp only [Bool.not_false, Bool.or_true, Bool.true_and, Bool.not_or,
      Bool.and_eq_true, Bool.not_eq_true'] at hm
    have := hm.1
    simpa using this
  · rintro rfl
    simp [truncCmpEq_self]

/-- When the conversion tail reports failure, the returned flag is
fValueOptional = false, the cursor is the option token index and the slot is
unchanged. -/
theorem convertAssign_fst_false {V : Type} (aS : Option (String → V))
    (pV : String → Option V) (fOpt : Bool) (comb : Bool) (iCur : Nat) (slot : V)
    (v : String) (h : (convertAssign aS pV fOpt comb iCur slot v).1 = false) :
    convertAssign aS pV fOpt comb iCur slot v =
      (false, if comb then iCur else iCur - 1, slot) := by
  unfold convertAssign at h ⊢
  cases aS with
  | some f => simp at h
  | none =>
    cases hp : pV v with
    | none => simp only [hp] at h ⊢; rw [← h]
    | some w => simp [hp] at h

/-- A candidate whose processing returns a failing call leaves the cursor at
the option token and the slot unchanged. -/
theorem processCand_ret_false {V : Type} (argv : List String) (hasSlot : Bool)
    (aS : Option (String → V)) (pV : String → Option V) (fOpt : Bool)
    (i : Nat) (slot : V) (arg keyword : String) (j : Nat) (s : V)
    (h : processCand argv hasSlot aS pV fOpt i slot arg keyword = CandStep.ret false j s) :
    j = i ∧ s = slot := by
  unfold processCand at h
  split at h
  · split at h
    · exact absurd h (by simp)
    · unfold CandStep.ofTriple at h
      rw [CandStep.ret.injEq] at h
      obtain ⟨h1, h2, h3⟩ := h
      have := convertAssign_fst_false aS pV fOpt true i slot
        (strDrop arg keyword.length) h1
      rw [this] at h2 h3
      exact ⟨h2.symm.trans rfl, h3.symm⟩
  · split at h
    · rw [CandStep.ret.injEq] at h
      exact ⟨h.2.1.symm, h.2.2.symm⟩
    · split at h
      · rw [CandStep.ret.injEq] at h
        exact ⟨h.2.1.symm, h.2.2.symm⟩
      · unfold CandStep.ofTriple at h
        rw [CandStep.ret.injEq] at h
        obtain ⟨h1, h2, h3⟩ := h
        have := convertAssign_fst_false aS pV fOpt false (i + 1) slot
          (argv.getD (i + 1) "") h1
        rw [this] at h2 h3
        refine ⟨h2.symm.trans ?_, h3.symm⟩
        simp

/-- A matching candidate never passes control to the next candidate: with a
slot the combined branch converts, and without a slot the match is exact, so
the presence-flag branch returns. -/
theorem processCand_of_matches {V : Type} (argv : List String) (hasSlot : Bool)
    (aS : Option (String → V)) (pV : String → Option V) (fOpt : Bool)
    (i : Nat) (slot : V) (arg keyword : String)
    (h : candMatches arg keyword hasSlot = true) :
    processCand argv hasSlot aS pV fOpt i slot arg keyword ≠ CandStep.next := by
  unfold processCand
  cases hasSlot with
  | true =>
    split
    · simp [CandStep.ofTriple]
    · split
      · simp at *
      · split <;> simp [CandStep.ofTriple]
  | false =>
    have harg : arg = keyword := (candMatches_noslot arg keyword).mp h
    rw [if_neg]
    · simp
    · rw [harg]
      exact Nat.lt_irrefl _

/-- A call whose result flag is false leaves the cursor and the slot
unchanged (candidate-loop version). -/
theorem getOptionLoop_false {V : Type} (argv : List String) (hasSlot : Bool)
    (aS : Option (String → V)) (pV : String → Option V) (fOpt : Bool)
    (i : Nat) (slot : V) (arg : String) :
    ∀ ks : List String,
      (getOptionLoop argv hasSlot aS pV fOpt i slot arg ks).1 = false →
      getOptionLoop argv hasSlot aS pV fOpt i slot arg ks = (false, i, slot)
  | [], _ => rfl
  | keyword :: rest, h => by
    unfold getOptionLoop at h ⊢
    by_cases hc : candSkip arg keyword hasSlot = true
    · rw [if_pos hc] at h ⊢
      exact getOptionLoop_false argv hasSlot aS pV fOpt i slot arg rest h
    · rw [if_neg hc] at h ⊢
      cases hp : processCand argv hasSlot aS pV fOpt i slot arg keyword with
      | ret ok j s =>
        rw [hp] at h
        have hok : ok = false := h
        subst hok
        obtain ⟨rfl, rfl⟩ := processCand_ret_false argv hasSlot aS pV fOpt i slot
          arg keyword j s hp
        rfl
      | next =>
        rw [hp] at h
        exact getOptionLoop_false argv hasSlot aS pV fOpt i slot arg rest h

/-- When no candidate matches, the loop fails with cursor and slot
unchanged. -/
theorem getOptionLoop_fm_none {V : Type} (argv : List String) (hasSlot : Bool)
    (aS : Option (String → V)) (pV : String → Option V) (fOpt : Bool)
    (i : Nat) (slot : V) (arg : String) :
    ∀ ks : List String, firstMatch arg hasSlot ks = none →
      getOptionLoop argv hasSlot aS pV fOpt i slot arg ks = (false, i, slot)
  | [], _ => rfl
  | keyword :: rest, h => by
    unfold firstMatch at h
    unfold getOptionLoop
    split at h
    · rw [if_pos]
      · exact getOptionLoop_fm_none argv hasSlot aS pV fOpt i slot arg rest h
      · assumption
    · exact absurd h (by simp)

/-- The loop result is the processing result of the first matching
candidate. -/
theorem getOptionLoop_fm {V : Type} (argv : List String) (hasSlot : Bool)
    (aS : Option (String → V)) (pV : String → Option V) (fOpt : Bool)
    (i : Nat) (slot : V) (arg : String) :
    ∀ (ks : List String) (k : String), firstMatch arg hasSlot ks = some k →
      ∀ (ok : Bool) (j : Nat) (s : V),
        processCand argv hasSlot aS pV fOpt i slot arg k = CandStep.ret ok j s →
        getOptionLoop argv hasSlot aS pV fOpt i slot arg ks = (ok, j, s)
  | [], k, h => by exact absurd h (by simp [firstMatch])
  | keyword :: rest, k, h => by
    intro ok j s hp
    unfold firstMatch at h
    unfold getOptionLoop
    split at h
    · rw [if_pos]
      · exact getOptionLoop_fm argv hasSlot aS pV fOpt i slot arg rest k h ok j s hp
      · assumption
    · rw [if_neg]
      · obtain rfl : keyword = k := by simpa using h
        rw [hp]
      · assumption

/-- getOption at a live cursor is the processing result of the first
matching candidate of the split spellings. -/
theorem getOption_fm {V : Type} (argv : List String) (names : String) (hasSlot : Bool)
    (aS : Option (String → V)) (pV : String → Option V) (fOpt : Bool)
    (i : Nat) (slot : V) (k : String) (ok : Bool) (j : Nat) (s : V)
    (hlen : i < argv.length)
    (hfm : firstMatch (argv.getD i "") hasSlot (splitWords names) = some k)
    (hp : processCand argv hasSlot aS pV fOpt i slot (argv.getD i "") k = CandStep.ret ok j s) :
    getOption argv names hasSlot aS pV fOpt i slot = (ok, j, s) := by
  unfold getOption
  rw [if_neg (Nat.not_le.mpr hlen)]
  exact getOptionLoop_fm argv hasSlot aS pV fOpt i slot (argv.getD i "")
    (splitWords names) k hfm ok j s hp

/-- With a slot, a keyword of length at most two followed by any tail is not
skipped. -/
theorem candSkip_with_tail (keyword s : String) (hk : keyword.length ≤ 2) :
    candSkip (keyword ++ s) keyword true = false := by
  have ht : truncCmpEq (keyword ++ s) keyword = true := (truncCmpEq_iff _ _).mpr ⟨s, rfl⟩
  unfold candSkip
  rw [ht, decide_eq_false (Nat.not_lt.mpr hk)]
  rfl

/-- The first candidate is the first match when it is not skipped. -/
theorem firstMatch_head (arg k : String) (ks : List String)
    (h : candSkip arg k true = false) : firstMatch arg true (k :: ks) = some k := by
  unfold firstMatch
  rw [h]
  simp

/-- In the combined form the conversion tail never moves the cursor. -/
theorem convertAssign_combined_cursor {V : Type} (aS : Option (String → V))
    (pV : String → Option V) (fOpt : Bool) (iCur : Nat) (slot : V) (v : String) :
    (convertAssign aS pV fOpt true iCur slot v).2.1 = iCur := by
  unfold convertAssign
  cases aS with
  | some f => rfl
  | none => cases pV v <;> rfl

/-- With no slot, when the current token equals some candidate, the loop
succeeds without moving the cursor. -/
theorem getOptionLoop_noslot_mem {V : Type} (argv : List String)
    (aS : Option (String → V)) (pV : String → Option V) (fOpt : Bool)
    (i : Nat) (slot : V) (arg : String) :
    ∀ ks : List String, arg ∈ ks →
      getOptionLoop argv false aS pV fOpt i slot arg ks = (true, i, slot)
  | [], hmem => absurd hmem (List.not_mem_nil arg)
  | keyword :: rest, hmem => by
    unfold getOptionLoop
    by_cases hc : candSkip arg keyword false = true
    · rw [if_pos hc]
      rcases List.mem_cons.mp hmem with he | hm
      · exfalso
        have hmt := (candMatches_noslot arg keyword).mpr he
        unfold candMatches at hmt
        rw [hc] at hmt
        simp at hmt
      · exact getOptionLoop_noslot_mem argv aS pV fOpt i slot arg rest hm
    · rw [if_neg hc]
      rw [Bool.not_eq_true] at hc
      have harg : arg = keyword := (candMatches_noslot arg keyword).mp
        (by unfold candMatches; rw [hc]; rfl)
      have hp : processCand argv false aS pV fOpt i slot arg keyword =
          CandStep.ret true i slot := by
        unfold processCand
        rw [if_neg (by rw [harg]; exact Nat.lt_irrefl _)]
        rfl
      rw [hp]

/-! ### Claim theorems -/

/-- Claim C1, counterexample: on tokens ["-a", "5"] with an integer slot the
match succeeds with slot 5, but the cursor ends at 1 (the index of the
consumed value token), not at 2 as the claim states. -/
theorem C1_counterexample :
    getOptionInt ["-a", "5"] "-a -abbrev" true false 0 0 = (true, 1, 5) ∧
    getOptionInt ["-a", "5"] "-a -abbrev" true false 0 0 ≠ (true, 2, 5) := by
  constructor
  · rfl
  · decide

/-- Claim C1 as amended: given spellings "-a -abbrev", an integer slot,
tokens ["-a", "5"] and cursor 0, the match succeeds, the slot receives 5 and
the cursor advances to 1, the index of the consumed value token (one past
the option token; the caller advances past the value itself). -/
theorem C1_separate_value_capture (slot : Int) (fOpt : Bool) :
    getOptionInt ["-a", "5"] "-a -abbrev" true fOpt 0 slot = (true, 1, 5) := rfl

/-- Claim C2, counterexample: a combined-form match with an integer slot
whose value text does not parse returns the valueOptional argument, not
false: with token "-ax" and valueOptional = true the call returns true (the
cursor stays at the option token and the slot is untouched). -/
theorem C2_counterexample :
    getOptionInt ["-ax"] "-a" true true 0 7 = (true, 0, 7) ∧
    (getOptionInt ["-ax"] "-a" true true 0 7).1 ≠ false := by decide

/-- Claim C2 as amended: for every combined-form match with a non-string
value slot, if the value text fails to convert then the call returns the
valueOptional argument, with the cursor left at the option token and the
slot untouched. -/
theorem C2_combined_unparseable {V : Type} (argv : List String) (names : String)
    (pV : String → Option V) (fOpt : Bool) (i : Nat) (slot : V) (k : String)
    (hlen : i < argv.length)
    (hfm : firstMatch (argv.getD i "") true (splitWords names) = some k)
    (hcomb : k.length < (argv.getD i "").length)
    (hparse : pV (strDrop (argv.getD i "") k.length) = none) :
    getOption argv names true none pV fOpt i slot = (fOpt, i, slot) := by
  refine getOption_fm argv names true none pV fOpt i slot k fOpt i slot hlen hfm ?_
  unfold processCand
  rw [if_pos hcomb, if_neg (by decide)]
  unfold CandStep.ofTriple convertAssign
  rw [hparse]
  rfl

/-- Claim C3: whenever the call returns false, the cursor and the slot are
unchanged; in particular an exhausted cursor fails with no side effect, a
spellings set without a matching candidate fails with no side effect, and a
failing call is a pure no-op that repeated calls replay identically. -/
theorem C3_failure_pure_noop {V : Type} (argv : List String) (names : String)
    (hasSlot : Bool) (aS : Option (String → V)) (pV : String → Option V)
    (fOpt : Bool) (i : Nat) (slot : V) :
    (argv.length ≤ i → getOption argv names hasSlot aS pV fOpt i slot = (false, i, slot)) ∧
    (firstMatch (argv.getD i "") hasSlot (splitWords names) = none →
      getOption argv names hasSlot aS pV fOpt i slot = (false, i, slot)) ∧
    ((getOption argv names hasSlot aS pV fOpt i slot).1 = false →
      getOption argv names hasSlot aS pV fOpt i slot = (false, i, slot)) ∧
    ((getOption argv names hasSlot aS pV fOpt i slot).1 = false →
      getOption argv names hasSlot aS pV fOpt
          (getOption argv names hasSlot aS pV fOpt i slot).2.1
          (getOption argv names hasSlot aS pV fOpt i slot).2.2 =
        getOption argv names hasSlot aS pV fOpt i slot) := by
  have hmain : (getOption argv names hasSlot aS pV fOpt i slot).1 = false →
      getOption argv names hasSlot aS pV fOpt i slot = (false, i, slot) := by
    intro h
    unfold getOption at h ⊢
    by_cases hlen : argv.length ≤ i
    · rw [if_pos hlen]
    · rw [if_neg hlen] at h ⊢
      exact getOptionLoop_false argv hasSlot aS pV fOpt i slot (argv.getD i "")
        (splitWords names) h
  refine ⟨?_, ?_, hmain, ?_⟩
  · intro hlen
    unfold getOption
    rw [if_pos hlen]
  · intro hfm
    unfold getOption
    by_cases hlen : argv.length ≤ i
    · rw [if_pos hlen]
    · rw [if_neg hlen]
      exact getOptionLoop_fm_none argv hasSlot aS pV fOpt i slot (argv.getD i "")
        (splitWords names) hfm
  · intro h
    rw [hmain h]
    exact hmain h

/-- Claim C4: in the combined form (first matching keyword strictly shorter
than the token, slot supplied) the value text is exactly the token with the
keyword removed and the cursor is never advanced; with no slot a strictly
shorter keyword passes control to the next candidate; concretely, spellings
"-a -abbrev" with an integer slot on token "-a5" succeed with slot 5 and
cursor unchanged. -/
theorem C4_combined_form {V : Type} (argv : List String) (names : String)
    (aS : Option (String → V)) (pV : String → Option V) (fOpt : Bool)
    (i : Nat) (slot : V) (k arg : String) (ks : List String)
    (hlen : i < argv.length)
    (hfm : firstMatch (argv.getD i "") true (splitWords names) = some k)
    (hcomb : k.length < (argv.getD i "").length) :
    (getOption argv names true aS pV fOpt i slot =
      convertAssign aS pV fOpt true i slot (strDrop (argv.getD i "") k.length)) ∧
    ((getOption argv names true aS pV fOpt i slot).2.1 = i) ∧
    (k.length < arg.length →
      getOptionLoop argv false aS pV fOpt i slot arg (k :: ks) =
        getOptionLoop argv false aS pV fOpt i slot arg ks) ∧
    (∀ (fOpt2 : Bool) (slot2 : Int),
      getOptionInt ["-a5"] "-a -abbrev" true fOpt2 0 slot2 = (true, 0, 5)) := by
  have h1 : getOption argv names true aS pV fOpt i slot =
      convertAssign aS pV fOpt true i slot (strDrop (argv.getD i "") k.length) := by
    refine (getOption_fm argv names true aS pV fOpt i slot k _ _ _ hlen hfm ?_).trans rfl
    unfold processCand
    rw [if_pos hcomb, if_neg (by decide)]
    rfl
  refine ⟨h1, ?_, ?_, ?_⟩
  · rw [h1]
    exact convertAssign_combined_cursor aS pV fOpt i slot _
  · intro hlt
    by_cases hc : candSkip arg k false = true
    · conv_lhs => unfold getOptionLoop
      rw [if_pos hc]
    · exfalso
      rw [Bool.not_eq_true] at hc
      have harg : arg = k := (candMatches_noslot arg k).mp
        (by unfold candMatches; rw [hc]; rfl)
      rw [harg] at hlt
      exact Nat.lt_irrefl _ hlt
  · intro fOpt2 slot2
    rfl

/-- Claim C5: a candidate of length at most two with a slot matches exactly
the tokens it is a prefix of; a longer candidate, or any candidate without a
slot, matches only the token equal to it; candidates are tried in order and
the first matching candidate decides the call (later candidates are
irrelevant). -/
theorem C5_matching_rules {V : Type} (argv : List String) (hasSlot : Bool)
    (aS : Option (String → V)) (pV : String → Option V) (fOpt : Bool)
    (i : Nat) (slot : V) (arg keyword : String) (rest : List String) :
    (keyword.length ≤ 2 →
      (candMatches arg keyword true = true ↔ ∃ t : String, arg = keyword ++ t)) ∧
    (2 < keyword.length → (candMatches arg keyword true = true ↔ arg = keyword)) ∧
    (candMatches arg keyword false = true ↔ arg = keyword) ∧
    (candMatches arg keyword hasSlot = false →
      getOptionLoop argv hasSlot aS pV fOpt i slot arg (keyword :: rest) =
        getOptionLoop argv hasSlot aS pV fOpt i slot arg rest) ∧
    (candMatches arg keyword hasSlot = true →
      getOptionLoop argv hasSlot aS pV fOpt i slot arg (keyword :: rest) =
        getOptionLoop argv hasSlot aS pV fOpt i slot arg [keyword]) := by
  refine ⟨candMatches_short_slot arg keyword, candMatches_long_slot arg keyword,
    candMatches_noslot arg keyword, ?_, ?_⟩
  · intro h
    have hc : candSkip arg keyword hasSlot = true := by
      unfold candMatches at h
      simpa using h
    conv_lhs => unfold getOptionLoop
    rw [if_pos hc]
  · intro h
    have hc : ¬(candSkip arg keyword hasSlot = true) := by
      unfold candMatches at h
      simp only [Bool.not_eq_true'] at h
      simp [h]
    unfold getOptionLoop
    rw [if_neg hc, if_neg hc]
    cases hp : processCand argv hasSlot aS pV fOpt i slot arg keyword with
    | ret ok j s => rfl
    | next =>
      exact absurd hp (processCand_of_matches argv hasSlot aS pV fOpt i slot arg keyword h)

/-- Claim C6: when the first matching keyword equals the token exactly, a
slot was supplied and no further token exists, the cursor is restored to the
option token, the slot is untouched and the call returns the valueOptional
argument. -/
theorem C6_dangling_value {V : Type} (argv : List String) (names : String)
    (aS : Option (String → V)) (pV : String → Option V) (fOpt : Bool)
    (i : Nat) (slot : V) (k : String)
    (hlen : i < argv.length)
    (hfm : firstMatch (argv.getD i "") true (splitWords names) = some k)
    (hexact : argv.getD i "" = k)
    (hlast : argv.length ≤ i + 1) :
    getOption argv names true aS pV fOpt i slot = (fOpt, i, slot) := by
  refine getOption_fm argv names true aS pV fOpt i slot k fOpt i slot hlen hfm ?_
  unfold processCand
  rw [if_neg (by rw [hexact]; exact Nat.lt_irrefl _), if_neg (by decide), if_pos hlast]

/-- Claim C7: when the first matching keyword equals the token exactly, the
following token exists but fails to convert to the non-string slot type, the
cursor advance is undone and the call returns the valueOptional argument;
the slot is untouched. -/
theorem C7_separate_unparseable {V : Type} (argv : List String) (names : String)
    (pV : String → Option V) (fOpt : Bool) (i : Nat) (slot : V) (k : String)
    (hlen : i + 1 < argv.length)
    (hfm : firstMatch (argv.getD i "") true (splitWords names) = some k)
    (hexact : argv.getD i "" = k)
    (hparse : pV (argv.getD (i + 1) "") = none) :
    getOption argv names true none pV fOpt i slot = (fOpt, i, slot) := by
  refine getOption_fm argv names true none pV fOpt i slot k fOpt i slot
    (Nat.lt_of_succ_lt hlen) hfm ?_
  unfold processCand
  rw [if_neg (by rw [hexact]; exact Nat.lt_irrefl _), if_neg (by decide),
    if_neg (Nat.not_le.mpr hlen)]
  unfold CandStep.ofTriple convertAssign
  rw [hparse]
  simp

/-- Claim C8: with no value slot, when the current token equals one of the
keyword candidates, the call returns true and the cursor stays at the flag
token. -/
theorem C8_presence_flag {V : Type} (argv : List String) (names : String)
    (aS : Option (String → V)) (pV : String → Option V) (fOpt : Bool)
    (i : Nat) (slot : V)
    (hlen : i < argv.length)
    (hmem : argv.getD i "" ∈ splitWords names) :
    getOption argv names false aS pV fOpt i slot = (true, i, slot) := by
  unfold getOption
  rw [if_neg (Nat.not_le.mpr hlen)]
  exact getOptionLoop_noslot_mem argv aS pV fOpt i slot (argv.getD i "")
    (splitWords names) hmem

/-- Claim C9: the comparison operators of SemanticVersion do not implement
lexicographic ordering: operator< answers true on (2,0,5) against (1,9,9)
although that triple is lexicographically greater, and operator<= answers
false on (1,9,0) against (2,0,0) although that triple is lexicographically
smaller. -/
theorem C9_semver_not_lexicographic :
    svLt ⟨2, 0, 5⟩ ⟨1, 9, 9⟩ = true ∧ lexLtSpec ⟨2, 0, 5⟩ ⟨1, 9, 9⟩ = false ∧
    svLe ⟨1, 9, 0⟩ ⟨2, 0, 0⟩ = false ∧ lexLeSpec ⟨1, 9, 0⟩ ⟨2, 0, 0⟩ = true := by decide

/-- Claim C10: with an integer slot a value text whose leading characters
parse as an integer is accepted with the trailing characters discarded, both
in the combined form (token "-a" followed by the value text) and in the
separate form (the value text as the next token); parseIntCpp itself accepts
"5x" as 5. -/
theorem C10_partial_value_parse (argv : List String) (i : Nat) (slot : Int)
    (fOpt : Bool) (s : String) (v : Int) :
    parseIntCpp "5x" = some 5 ∧
    (i < argv.length → argv.getD i "" = "-a" ++ s → s ≠ "" → parseIntCpp s = some v →
      getOptionInt argv "-a -abbrev" true fOpt i slot = (true, i, v)) ∧
    (i + 1 < argv.length → argv.getD i "" = "-a" →
      parseIntCpp (argv.getD (i + 1) "") = some v →
      getOptionInt argv "-a -abbrev" true fOpt i slot = (true, i + 1, v)) := by
  refine ⟨by decide, ?_, ?_⟩
  · intro hlen harg hs hparse
    have hs0 : s.data ≠ [] := fun h0 => hs (String.ext h0)
    have hlt : ("-a" : String).length < ("-a" ++ s).length := by
      show ("-a" : String).data.length < ("-a" ++ s).data.length
      rw [String.data_append, List.length_append]
      have hpos : 0 < s.data.length := List.length_pos.mpr hs0
      omega
    have hd : strDrop ("-a" ++ s) (("-a" : String).length) = s := by
      unfold strDrop
      apply String.ext
      show ("-a" ++ s).data.drop (("-a" : String).data.length) = s.data
      rw [String.data_append, List.drop_left]
    refine getOption_fm argv "-a -abbrev" true none parseIntCpp fOpt i slot "-a"
      true i v hlen ?_ ?_
    · rw [harg]
      show firstMatch ("-a" ++ s) true ["-a", "-abbrev"] = some "-a"
      exact firstMatch_head ("-a" ++ s) "-a" ["-abbrev"]
        (candSkip_with_tail "-a" s (by decide))
    · unfold processCand
      rw [harg, if_pos hlt, if_neg (by decide), hd]
      unfold CandStep.ofTriple convertAssign
      rw [hparse]
  · intro hlen harg hparse
    refine getOption_fm argv "-a -abbrev" true none parseIntCpp fOpt i slot "-a"
      true (i + 1) v (Nat.lt_of_succ_lt hlen) ?_ ?_
    · rw [harg]
      show firstMatch "-a" true ["-a", "-abbrev"] = some "-a"
      exact firstMatch_head "-a" "-a" ["-abbrev"] (by decide)
    · unfold processCand
      rw [harg, if_neg (Nat.lt_irrefl _), if_neg (by decide), if_neg (Nat.not_le.mpr hlen)]
      unfold CandStep.ofTriple convertAssign
      rw [hparse]

/-! ### Witnesses -/

/-- Witness for C2: combined token "-ax", mandatory integer value, the call
fails with cursor and slot unchanged. -/
theorem C2_witness : getOptionInt ["-ax"] "-a" true false 0 7 = (false, 0, 7) :=
  C2_combined_unparseable ["-ax"] "-a" parseIntCpp false 0 7 "-a" (by decide) (by decide)
    (by decide) (by decide)

/-- Witness for C3: a non-matching probe fails with cursor and slot
unchanged. -/
theorem C3_witness : getOptionInt ["-b"] "-a -abbrev" true false 0 7 = (false, 0, 7) :=
  (C3_failure_pure_noop ["-b"] "-a -abbrev" true none parseIntCpp false 0 7).2.2.1 (by decide)

/-- Witness for C4: combined token "-a5" captures 5 with the cursor
unchanged. -/
theorem C4_witness : getOptionInt ["-a5"] "-a -abbrev" true false 0 7 = (true, 0, 5) :=
  ((C4_combined_form ["-a5"] "-a -abbrev" none parseIntCpp false 0 7 "-a" "" []
    (by decide) (by decide) (by decide)).1).trans (by decide)

/-- Witness for C5: the matching first candidate "-a" decides the call on
token "-a5" and the later candidate is irrelevant. -/
theorem C5_witness :
    getOptionLoop ["-a5"] true none parseIntCpp false 0 (7 : Int) "-a5" ["-a", "-abbrev"] =
      getOptionLoop ["-a5"] true none parseIntCpp false 0 (7 : Int) "-a5" ["-a"] :=
  (C5_matching_rules ["-a5"] true none parseIntCpp false 0 (7 : Int) "-a5" "-a"
    ["-abbrev"]).2.2.2.2 (by decide)

/-- Witness for C6: tokens ["-a"], integer slot, optional value: success
with slot untouched and cursor restored. -/
theorem C6_witness : getOptionInt ["-a"] "-a" true true 0 7 = (true, 0, 7) :=
  C6_dangling_value ["-a"] "-a" none parseIntCpp true 0 7 "-a" (by decide) (by decide)
    (by decide) (by decide)

/-- Witness for C7: tokens ["-a", "notanumber"], mandatory integer value:
failure with cursor restored and slot untouched. -/
theorem C7_witness : getOptionInt ["-a", "notanumber"] "-a" true false 0 7 = (false, 0, 7) :=
  C7_separate_unparseable ["-a", "notanumber"] "-a" parseIntCpp false 0 7 "-a" (by decide)
    (by decide) (by decide) (by decide)

/-- Witness for C8: token "-a" as a pure presence flag succeeds without
advancing the cursor. -/
theorem C8_witness : getOptionInt ["-a"] "-a" false false 0 7 = (true, 0, 7) :=
  C8_presence_flag ["-a"] "-a" none parseIntCpp false 0 7 (by decide) (by decide)

/-- Witness for C10: combined token "-a5x" captures 5, discarding the
trailing "x". -/
theorem C10_witness : getOptionInt ["-a5x"] "-a -abbrev" true false 0 7 = (true, 0, 5) :=
  (C10_partial_value_parse ["-a5x"] 0 7 false "5x" 5).2.1 (by decide) (by decide)
    (by decide) (by decide)
